import Mathlib

/-!
# Verification of `build.py` (yoda-packages)

A shallow embedding of the packaging pipeline in `build.py`:
configuration loading and merging (`parse_repos`, `load_json`),
repository preparation and git-reference resolution (`prep_repo`),
instruction gathering (`gather_instructions`), and command synthesis
(`run_fpm`).

Python values appearing in the JSON configuration files are modelled by
`PyScalar` (strings, booleans, integers, `None`) and `PyVal` (a scalar, a
list of scalars, or a flat dict of scalars — the shapes the two
configuration files of this program use).  Python dicts are modelled as
insertion-ordered association lists.  Exceptions are modelled by the
`PyError` type and fallible code returns `Except PyError _`.  Filesystem
and git state that the program inspects is passed in explicitly.
-/

/-- A Python scalar value as found in the JSON configuration files. -/
inductive PyScalar where
  | str (s : String)
  | bool (b : Bool)
  | int (n : Int)
  | none
deriving DecidableEq, Repr

/-- A Python value as used by the pipeline: a scalar, a list of scalars,
or a flat dict of scalars (for `templates`). -/
inductive PyVal where
  | scalar (v : PyScalar)
  | list (xs : List PyScalar)
  | dict (d : List (String × PyScalar))
deriving DecidableEq, Repr

/-- An insertion-ordered Python dict with values of type `α`. -/
abbrev PyAssoc (α : Type) := List (String × α)

/-- A Python dict holding `PyVal` values (e.g. the parsed `fpm.json`). -/
abbrev PyDict := PyAssoc PyVal

/-- Python exceptions raised by the code paths under study. -/
inductive PyError where
  | fileNotFound (msg : String)
  | typeError (msg : String)
  | exception (msg : String)
  | unboundLocal (var : String)
  | keyError (k : String)
  | valueError (msg : String)
  | attributeError (msg : String)
deriving DecidableEq, Repr

/-- `d[k]` lookup returning the first binding (Python dicts have unique
keys; association lists generalise them). -/
def dGet {α : Type} (d : PyAssoc α) (k : String) : Option α :=
  match d with
  | [] => Option.none
  | (k', v) :: rest => if k' = k then some v else dGet rest k

/-- `d[k] = v`: replace in place when the key exists (Python dicts keep
the original insertion position), append otherwise. -/
def dSet {α : Type} (d : PyAssoc α) (k : String) (v : α) : PyAssoc α :=
  match d with
  | [] => [(k, v)]
  | (k', v') :: rest => if k' = k then (k', v) :: rest else (k', v') :: dSet rest k v

/-- `d.pop(k, default)` without the default: the removed value (if any)
and the remaining dict. -/
def dPop {α : Type} (d : PyAssoc α) (k : String) : Option α × PyAssoc α :=
  match d with
  | [] => (Option.none, [])
  | (k', v) :: rest =>
      if k' = k then (some v, rest)
      else
        let (r, rest') := dPop rest k
        (r, (k', v) :: rest')

/-- `d.update(other)`: set every binding of `other` in `d`, in order. -/
def dUpdate {α : Type} (d other : PyAssoc α) : PyAssoc α :=
  other.foldl (fun acc kv => dSet acc kv.1 kv.2) d

/-- `d.setdefault(k, v)`: the resulting value for `k` and the updated
dict. -/
def dSetdefault {α : Type} (d : PyAssoc α) (k : String) (v : α) : α × PyAssoc α :=
  match dGet d k with
  | some x => (x, d)
  | Option.none => (v, dSet d k v)

/-- The keys of a dict, in insertion order. -/
def dKeys {α : Type} (d : PyAssoc α) : List String := d.map Prod.fst

/-- Python `==` on scalars, including the numeric equality of booleans
and integers (`True == 1`). -/
def pyEq : PyScalar → PyScalar → Bool
  | .str a, .str b => a = b
  | .bool a, .bool b => a = b
  | .int a, .int b => a = b
  | .bool a, .int b => (if a then (1 : Int) else 0) = b
  | .int a, .bool b => a = (if b then (1 : Int) else 0)
  | .none, .none => true
  | _, _ => false

/-- Python `x in xs` for a list of scalars (`any(x == e for e in xs)`). -/
def pyMem (x : PyScalar) (xs : List PyScalar) : Bool :=
  xs.any (fun e => pyEq x e)

/-! ## Module constants (lines 47-59 of `build.py`) -/

def GITHUB_GIT : String := "https://github.com/\x7bfork\x7d/\x7bname\x7d"
def PKG_AREA : String := "/tmp/yoda-packages"
def PKG_SUBDIR : String := "packages"
def REPOS_JSON : String := "repos.json"
def REPOS_DEFAULT_KW : String := "DEFAULT"
def FPM_JSON : String := "fpm.json"
def DEFAULT_ARCH : String := "noarch"
def DEFAULT_PKG : String := "rpm"
def FPM : String := "fpm"
def ARGS_KW : String := "ARGS"
def DEFAULT_INPUT_TYPE : String := "dir"
def EXCLUDE_DEFAULT : List PyScalar := [.str "*/.git*"]

/-! ## `load_json` (lines 62-67)

The file system is abstracted by the state of the one file being read:
missing, present but not valid JSON (with the parse error's message), or
present and parsed to a dict.  `open` raising `FileNotFoundError` happens
outside the `try`, so a missing file is *not* wrapped.  For invalid JSON
the handler's re-raise `raise type(e)("Failed to load json ...")` does
not succeed either: `json.load` raises `json.JSONDecodeError`, whose
constructor requires the three arguments `(msg, doc, pos)`, so calling
`type(e)` with the single formatted string raises a `TypeError` — and
that `TypeError`, whose message names neither the file nor the parse
error, is what propagates (CPython 3 message text below). -/

/-- The state of a JSON file on disk. -/
inductive FileState where
  | missing
  | invalid (parseErrMsg : String)
  | valid (d : PyDict)
deriving DecidableEq, Repr

/-- `load_json(fn)` over the abstract file state. -/
def load_json (fn : String) (st : FileState) : Except PyError PyDict :=
  match st with
  | .missing =>
      .error (.fileNotFound ("[Errno 2] No such file or directory: '" ++ fn ++ "'"))
  | .invalid _ =>
      .error (.typeError
        "JSONDecodeError.__init__() missing 2 required positional arguments: 'doc' and 'pos'")
  | .valid d => .ok d

/-- The message text carried by a `PyError`. -/
def PyError.msg : PyError → String
  | .fileNotFound m => m
  | .typeError m => m
  | .exception m => m
  | .unboundLocal v =>
      "local variable '" ++ v ++ "' referenced before assignment"
  | .keyError k => k
  | .valueError m => m
  | .attributeError m => m

/-- Whether `small` occurs as a contiguous run inside `big` (used to
state which names an error message does or does not contain). -/
def containsSublist (big small : List Char) : Bool :=
  match big with
  | [] => small.isEmpty
  | _ :: rest => small.isPrefixOf big || containsSublist rest small

/-! ## `prep_repo` (lines 70-116)

The filesystem/network effects of lines 75-87 (wipe, clone, open) produce
a repository whose state we pass in explicitly: its list of git
references (`repo.refs`), working directory, last-commit metadata and
remote URL.  GitPython reference names: a tag's `name` is the bare tag
name, a local head's `name` is the bare branch name, and a remote
branch's `name` is `origin/<branch>`. -/

/-- The kind of a git reference, as enumerated by `repo.refs`. -/
inductive GitRefKind where
  | head
  | remote
  | tag
deriving DecidableEq, Repr

/-- A git reference: its kind and its GitPython `name`. -/
structure GitRef where
  kind : GitRefKind
  name : String
deriving DecidableEq, Repr

/-- Repository state relevant to the pipeline after clone/open. -/
structure RepoState where
  refs : List GitRef
  workingDir : String
  commitTimestamp : Int
  commitHexsha : String
  remoteUrl : String
deriving DecidableEq, Repr

/-- The loop variable `ref_type` of lines 94-109. -/
inductive RefType where
  | tag
  | branch
deriving DecidableEq, Repr

/-- `full_name` for a candidate type (lines 95-98): the bare name for a
tag, `origin/<ref>` for a branch. -/
def fullRefName (t : RefType) (refName : String) : String :=
  match t with
  | .branch => "origin/" ++ refName
  | .tag => refName

/-- Line 100: `[r for r in repo.refs if r.name == full_name]`. -/
def refCandidates (refs : List GitRef) (fullName : String) : List GitRef :=
  refs.filter (fun r => r.name == fullName)

/-- Python `s.startswith(pre)`. -/
def pyStartsWith (s pre : String) : Bool :=
  pre.data.isPrefixOf s.data

/-- Lines 103-106: the derived version when `ref_is_version` is set —
the ref name with one leading `v` stripped when present. -/
def stripLeadingV (s : String) : String :=
  if pyStartsWith s "v" then s.drop 1 else s

/-- The loop of lines 94-109, over the remaining candidate types: the
first type whose candidate list is nonempty wins, yielding the matched
type, the reference `candidates[0]`, and the derived version (set only
when `ref_is_version` is truthy). -/
def tryRefTypes (refs : List GitRef) (refName : String) (refIsVersion : Bool) :
    List RefType → Option (RefType × GitRef × Option String)
  | [] => Option.none
  | t :: rest =>
      match refCandidates refs (fullRefName t refName) with
      | r :: _ =>
          some (t, r, if refIsVersion then some (stripLeadingV refName) else Option.none)
      | [] => tryRefTypes refs refName refIsVersion rest

/-- Reference resolution for a configured `ref` (lines 94-109): tag
before branch, first match wins. -/
def resolveRef (refs : List GitRef) (refName : String) (refIsVersion : Bool) :
    Option (RefType × GitRef × Option String) :=
  tryRefTypes refs refName refIsVersion [RefType.tag, RefType.branch]

/-- Python truthiness, for `if repo_d.get('ref_is_version', False):`. -/
def pyTruthy : PyVal → Bool
  | .scalar (.str s) => s ≠ ""
  | .scalar (.bool b) => b
  | .scalar (.int n) => n ≠ 0
  | .scalar .none => false
  | .list xs => xs ≠ []
  | .dict d => d ≠ []

/-- `repo_d.get('ref_is_version', False)` used as a condition. -/
def refIsVersionFlag (repo_d : PyDict) : Bool :=
  match dGet repo_d "ref_is_version" with
  | some v => pyTruthy v
  | Option.none => false

/-- Lines 89-109: resolve the configured ref, when there is one.  A
`none` result means the local variable `ref` was never assigned.  A
present but non-string `ref` value fails in the branch pass, where
`"origin/" + ref_name` raises `TypeError` (the tag pass compares the
non-string against reference names and never matches). -/
def prepRepoResolve (repo_d : PyDict) (refs : List GitRef) :
    Except PyError (Option (RefType × GitRef × Option String)) :=
  match dGet repo_d "ref" with
  | Option.none => .ok Option.none
  | some (.scalar (.str refName)) =>
      .ok (resolveRef refs refName (refIsVersionFlag repo_d))
  | some _ =>
      .error (.exception "TypeError: can only concatenate str (not str) values")

/-- `prep_repo` (lines 70-116) after the clone/open effects: resolve the
ref, check it out (line 111 — `UnboundLocalError` when no ref was
assigned), and compute the effective version
`repo_d.get('version', ref_version)` (line 115).  Returns the checked
out reference and the effective version value. -/
def prep_repo (repo_d : PyDict) (refs : List GitRef) :
    Except PyError (GitRef × PyVal) := do
  let resolved ← prepRepoResolve repo_d refs
  match resolved with
  | Option.none => .error (.unboundLocal "ref")
  | some (_t, ref, refVersion) =>
      let version : PyVal :=
        match dGet repo_d "version" with
        | some v => v
        | Option.none =>
            match refVersion with
            | some s => .scalar (.str s)
            | Option.none => .scalar .none
      .ok (ref, version)

/-! ## `gather_instructions` (lines 119-183)

Filesystem state is passed in: for each candidate instructions
directory, whether it is a directory, the state of its `fpm.json`, and
which lifecycle-script files exist in it. -/

/-- `os.path.join` for relative components. -/
def pathJoin (a b : String) : String := a ++ "/" ++ b

/-- The observable state of one candidate instructions directory. -/
structure InstDir where
  isDir : Bool
  fpmJson : FileState
  scripts : List String
deriving DecidableEq, Repr

/-- The filesystem state `gather_instructions` inspects: the
`packaging` directory of the working copy and the `instructions/<name>`
directory under the invocation root. -/
structure GatherFS where
  packaging : InstDir
  instructions : InstDir
deriving DecidableEq, Repr

/-- The six lifecycle script names, in the loop order of lines 152-158
(`op` outer, `when` inner). -/
def scriptOpnames : List String :=
  (["install", "remove", "upgrade"].map
    (fun op => ["before", "after"].map (fun w => w ++ "-" ++ op))).flatten

/-- One iteration of the script loop: set the option when the script
file exists. -/
def addScript (inst : InstDir) (instPath : String) (acc : PyDict)
    (opname : String) : PyDict :=
  if inst.scripts.contains opname then
    dSet acc opname (.scalar (.str (pathJoin instPath opname)))
  else acc

/-- Lines 152-158: set each present lifecycle script file as an option. -/
def addScripts (inst : InstDir) (instPath : String) (fpm : PyDict) : PyDict :=
  scriptOpnames.foldl (addScript inst instPath) fpm

/-- Lines 169-175: exclude-list normalization.  Read `exclude`
(defaulting to `[]`), wrap a non-list value into a one-element list, and
append each default pattern not already present.  A dict-valued
`exclude` lies outside the PackageSpec value grammar (the configuration
files of this program hold scalars and lists of scalars as option
values), so the flat value model treats that shape as the empty list. -/
def normalizeExclude (v : Option PyVal) : List PyScalar :=
  let excl : List PyScalar :=
    match v with
    | Option.none => []
    | some (.list xs) => xs
    | some (.scalar s) => [s]
    | some (.dict _) => []
  EXCLUDE_DEFAULT.foldl
    (fun acc defExcl => if pyMem defExcl acc then acc else acc ++ [defExcl])
    excl

/-- Lines 160-176: the defaults applied to the loaded fpm dict —
lifecycle scripts, `iteration` from the last commit, `url`, `name`,
`architecture`, `input-type`, and the normalized `exclude` list. -/
def applyFpmDefaults (name : String) (repo : RepoState) (inst : InstDir)
    (instPath : String) (fpm : PyDict) : PyDict :=
  let fpm := addScripts inst instPath fpm
  let iterationStr :=
    toString repo.commitTimestamp ++ "." ++ repo.commitHexsha.take 8
  let fpm := (dSetdefault fpm "iteration" (.scalar (.str iterationStr))).2
  let fpm := (dSetdefault fpm "url" (.scalar (.str repo.remoteUrl))).2
  let fpm := (dSetdefault fpm "name" (.scalar (.str name))).2
  let fpm := (dSetdefault fpm "architecture" (.scalar (.str DEFAULT_ARCH))).2
  let fpm := (dSetdefault fpm "input-type" (.scalar (.str DEFAULT_INPUT_TYPE))).2
  dSet fpm "exclude" (.list (normalizeExclude (dGet fpm "exclude")))

/-- Lines 178-181: `fpm.setdefault('version', version)` and the
`MissingVersion` check on the resulting value. -/
def applyVersion (name : String) (version : PyVal) (fpm : PyDict) :
    Except PyError PyDict :=
  let (gotVersion, fpm) := dSetdefault fpm "version" version
  if gotVersion = PyVal.scalar .none then
    Except.error (.exception ("No version for " ++ name))
  else
    Except.ok fpm

/-- `gather_instructions(name, repo, version)` (lines 119-183).  The
returned dict is the fully resolved fpm option dict; errors are the
exceptions the function can raise.  When neither candidate directory
exists, line 139 reads the never-assigned local `inst`, raising
`UnboundLocalError` — the `"No instructions path found"` exception of
line 140 is kept for fidelity but its guard cannot fire. -/
def gather_instructions (name : String) (repo : RepoState) (version : PyVal)
    (fs : GatherFS) (cwd : String) : Except PyError PyDict := do
  let ginstPath := pathJoin (pathJoin cwd "instructions") name
  let linstPath := pathJoin repo.workingDir "packaging"
  let (inst, instPath) ←
    if fs.packaging.isDir then
      Except.ok (fs.packaging, linstPath)
    else if fs.instructions.isDir then
      Except.ok (fs.instructions, ginstPath)
    else
      Except.error (.unboundLocal "inst")
  if !inst.isDir then
    Except.error (.exception "No instructions path found")
  else do
    let fpmJsonPath := pathJoin instPath FPM_JSON
    if inst.fpmJson = FileState.missing then
      Except.error (.exception ("No FPM instructions " ++ fpmJsonPath ++ " found"))
    else do
      let fpm ← load_json fpmJsonPath inst.fpmJson
      match (dKeys fpm).find? (fun k => k.length = 1) with
      | some k =>
          Except.error (.exception ("Found single letter " ++ k ++ " (i.e. short option)"))
      | Option.none =>
          applyVersion name version (applyFpmDefaults name repo inst instPath fpm)

/-! ## `parse_repos` (lines 259-280)

`repos.json` parses to an object of objects: each top-level value is a
repo entry dict whose `templates` value (when present) is a flat dict.
The model types the parsed file as `PyAssoc PyDict`. -/

/-- Code-point lexicographic `≤` on character lists — Python's string
ordering. -/
def charListLe : List Char → List Char → Bool
  | [], _ => true
  | _ :: _, [] => false
  | a :: as, b :: bs =>
      if a.toNat < b.toNat then true
      else if b.toNat < a.toNat then false
      else charListLe as bs

/-- Python `a <= b` on strings. -/
def strLe (a b : String) : Bool := charListLe a.data b.data

/-- Insert into an ascending list, keeping it ascending. -/
def insertSorted (x : String) : List String → List String
  | [] => [x]
  | y :: ys => if strLe x y then x :: y :: ys else y :: insertSorted x ys

/-- Python `sorted` on strings: the ascending reordering by code-point
lexicographic order (realised by insertion sort, which agrees with any
stable sort on the distinct keys of a dict). -/
def sortStrings (ks : List String) : List String := ks.foldr insertSorted []

/-- `d.pop('templates', {})`, requiring the popped value (when present)
to be a dict — a non-dict value makes the subsequent `tpls.update`
raise. -/
def popTemplates (d : PyDict) : Except PyError (PyAssoc PyScalar × PyDict) :=
  match dPop d "templates" with
  | (Option.none, d') => .ok ([], d')
  | (some (.dict t), d') => .ok (t, d')
  | (some _, _) => .error (.exception "templates value is not a dict")

/-- The body of the loop of lines 267-278 for one key `k`. -/
def parseRepoEntry (default : PyDict) (k : String) (entry : PyDict) :
    Except PyError PyDict := do
  let (tplsD, v) ← popTemplates default
  let (tplsR, entry') ← popTemplates entry
  let tpls := dUpdate tplsD tplsR
  let v := dUpdate v entry'
  let v := dSet v "name" (.scalar (.str k))
  let v := dSet v "templates" (.dict tpls)
  .ok v

/-- One iteration of the loop of lines 267-278: look up the entry for
`k`, merge it, and append the merged RepoSpec to the result list. -/
def parseReposStep (repos : PyAssoc PyDict) (default : PyDict)
    (res : List PyDict) (k : String) : Except PyError (List PyDict) := do
  match dGet repos k with
  | Option.none => Except.error (.keyError k)
  | some entry => do
      let v ← parseRepoEntry default k entry
      Except.ok (res ++ [v])

/-- `parse_repos` (lines 259-280) on the parsed `repos.json` object:
pop the `DEFAULT` entry, then for each remaining key in sorted order
build the merged RepoSpec dict. -/
def parse_repos (repos0 : PyAssoc PyDict) : Except PyError (List PyDict) := do
  let (defaultOpt, repos) := dPop repos0 REPOS_DEFAULT_KW
  let default := defaultOpt.getD []
  (sortStrings (dKeys repos)).foldlM (parseReposStep repos default) []

/-! ## `run_fpm` (lines 186-236)

The synthesized command line is the observable outcome; an `.ok cmds`
result means execution reaches `subprocess.check_output(cmds, ...)`
(line 232), an `.error` means an exception is raised before any command
is executed. -/

/-- `str(v)` for a scalar. -/
def PyScalar.pyStr : PyScalar → String
  | .str s => s
  | .bool b => if b then "True" else "False"
  | .int n => toString n
  | .none => "None"

/-- `repr(v)` for a scalar. -/
def PyScalar.pyRepr : PyScalar → String
  | .str s => "'" ++ s ++ "'"
  | v => v.pyStr

/-- `str(v)`: textual form of a value when substituted into a format
field. -/
def PyVal.pyStr : PyVal → String
  | .scalar s => s.pyStr
  | .list xs => "[" ++ String.intercalate ", " (xs.map PyScalar.pyRepr) ++ "]"
  | .dict d =>
      "\x7b" ++
        String.intercalate ", " (d.map (fun kv => "'" ++ kv.1 ++ "': " ++ kv.2.pyRepr)) ++
      "\x7d"

/-- `s.format(**ctx)` for the plain `\x7bname\x7d` fields this program
uses (no conversion or format-spec suffixes): `\x7b\x7b`/`\x7d\x7d`
escape a literal brace, an unknown field name raises `KeyError`, an
unterminated or stray brace raises `ValueError`.  The fuel argument
bounds the recursion by the input length. -/
def pyFormatAux (ctx : PyDict) : Nat → List Char → Except PyError String
  | 0, _ => .ok ""
  | _, [] => .ok ""
  | Nat.succ fuel, c :: rest =>
      if c = '\x7b' then
        match rest with
        | '\x7b' :: rest2 => do
            let r ← pyFormatAux ctx fuel rest2
            .ok ("\x7b" ++ r)
        | _ =>
            let field := rest.takeWhile (fun d => d ≠ '\x7d')
            match rest.dropWhile (fun d => d ≠ '\x7d') with
            | [] => .error (.valueError "Single '\x7b' encountered in format string")
            | _ :: rest3 =>
                match dGet ctx (String.mk field) with
                | some v => do
                    let r ← pyFormatAux ctx fuel rest3
                    .ok (v.pyStr ++ r)
                | Option.none => .error (.keyError (String.mk field))
      else if c = '\x7d' then
        match rest with
        | '\x7d' :: rest2 => do
            let r ← pyFormatAux ctx fuel rest2
            .ok ("\x7d" ++ r)
        | _ => .error (.valueError "Single '\x7d' encountered in format string")
      else do
        let r ← pyFormatAux ctx fuel rest
        .ok (String.mk [c] ++ r)

/-- `orig_v.format(**template_data)` for a string value. -/
def pyFormat (s : String) (ctx : PyDict) : Except PyError String :=
  pyFormatAux ctx s.data.length s.data

/-- `os.path.join(PKG_AREA, PKG_SUBDIR)` (line 192). -/
def pkgdir : String := pathJoin PKG_AREA PKG_SUBDIR

/-- The fixed base command of lines 196-203. -/
def baseCmds : List String :=
  [FPM, "--force", "--verbose", "--template-scripts",
   "--output-type", DEFAULT_PKG, "--package", pkgdir]

/-- Lines 208-210 for one generic key: pop it when present and set the
`<package-type>-<key>` equivalent (an existing binding of the target key
is overwritten; a fresh one is appended at the end of the insertion
order). -/
def renameStep (acc : PyDict) (k : String) : PyDict :=
  match dPop acc k with
  | (some v, acc') => dSet acc' (DEFAULT_PKG ++ "-" ++ k) v
  | (Option.none, _) => acc

/-- Lines 207-210: replace generic `user`/`group` keys by
`<package-type>-<key>`. -/
def renameUserGroup (fpm : PyDict) : PyDict :=
  ["user", "group"].foldl renameStep fpm

/-- Line 215-216: wrap a non-list value into a one-element sequence of
elements to render. -/
def pyValElems : PyVal → List PyVal
  | .list xs => xs.map .scalar
  | v => [v]

/-- Lines 218-226 for one element: a boolean appends the bare flag when
true and nothing when false; every other element is rendered with
`.format`, which only strings support (`AttributeError` otherwise), and
goes to the trailing args when the key is `ARGS`, else as
`--<key> <value>`.  Returns the tokens added to the option list and to
the trailing args. -/
def fpmElem (td : PyDict) (origK : String) (v : PyVal) :
    Except PyError (List String × List String) :=
  let k := "--" ++ origK
  match v with
  | .scalar (.bool b) => .ok (if b then [k] else [], [])
  | .scalar (.str s) => do
      let r ← pyFormat s td
      if origK = ARGS_KW then .ok ([], [r]) else .ok ([k, r], [])
  | .scalar (.int _) =>
      .error (.attributeError "'int' object has no attribute 'format'")
  | .scalar .none =>
      .error (.attributeError "'NoneType' object has no attribute 'format'")
  | .list _ =>
      .error (.attributeError "'list' object has no attribute 'format'")
  | .dict _ =>
      .error (.attributeError "'dict' object has no attribute 'format'")

/-- The value shapes whose rendering at lines 218-226 necessarily
raises: everything except a string (the only type with `.format`) and a
boolean (which never reaches `.format`). -/
def fpmElemFails : PyVal → Bool
  | .scalar (.str _) => false
  | .scalar (.bool _) => false
  | _ => true

/-- Render the elements of one option value, left to right. -/
def processElems (td : PyDict) (origK : String) :
    List PyVal → Except PyError (List String × List String)
  | [] => .ok ([], [])
  | v :: vs => do
      let (c1, a1) ← fpmElem td origK v
      let (c2, a2) ← processElems td origK vs
      .ok (c1 ++ c2, a1 ++ a2)

/-- The loop of lines 213-226 over the dict items. -/
def processItems (td : PyDict) :
    List (String × PyVal) → Except PyError (List String × List String)
  | [] => .ok ([], [])
  | (k, v) :: rest => do
      let (c1, a1) ← processElems td k (pyValElems v)
      let (c2, a2) ← processItems td rest
      .ok (c1 ++ c2, a1 ++ a2)

/-- `run_fpm(fpm, template_data)` (lines 186-236) up to the point where
the synthesized command is executed: merge the fpm dict into the
template data (line 190), rename `user`/`group`, render every option,
and append the collected `ARGS` last (line 229).  Returns the full
command token list handed to `subprocess.check_output`. -/
def run_fpm (fpm : PyDict) (templateData : PyDict) : Except PyError (List String) := do
  let td := dUpdate templateData fpm
  let fpm := renameUserGroup fpm
  let (optCmds, args) ← processItems td fpm
  .ok (baseCmds ++ optCmds ++ args)

/-- The pipeline of `make_package` (lines 239-256) up to the gathered
package dict: `prep_repo` then `gather_instructions` with the effective
version. -/
def makePackageDict (repo_d : PyDict) (repo : RepoState) (fs : GatherFS)
    (cwd : String) : Except PyError PyDict := do
  let name :=
    match dGet repo_d "name" with
    | some (.scalar (.str n)) => n
    | _ => ""
  let (_ref, rversion) ← prep_repo repo_d repo.refs
  gather_instructions name repo rversion fs cwd

/-! ## Association-list lemmas -/

lemma dGet_dSet {α : Type} (d : PyAssoc α) (k k' : String) (v : α) :
    dGet (dSet d k v) k' = if k = k' then some v else dGet d k' := by
  induction d with
  | nil => simp [dGet, dSet]
  | cons kv rest ih =>
      obtain ⟨k₀, v₀⟩ := kv
      simp only [dSet]
      by_cases h₀ : k₀ = k
      · subst h₀
        by_cases h₁ : k₀ = k' <;> simp [dGet, h₁]
      · simp only [if_neg h₀, dGet]
        by_cases h₁ : k₀ = k'
        · have h₂ : ¬ k = k' := fun he => h₀ (h₁.trans he.symm)
          simp [h₁, h₂]
        · simp [h₁, ih]

lemma dGet_dSetdefault_ne {α : Type} (d : PyAssoc α) (k k' : String) (v : α)
    (h : k ≠ k') : dGet ((dSetdefault d k v).2) k' = dGet d k' := by
  unfold dSetdefault
  cases hg : dGet d k with
  | none => simp [dGet_dSet, h]
  | some x => simp

lemma dGet_addScript_ne (inst : InstDir) (instPath : String) (acc : PyDict)
    (opname k : String) (h : opname ≠ k) :
    dGet (addScript inst instPath acc opname) k = dGet acc k := by
  unfold addScript
  split <;> simp [dGet_dSet, h]

lemma dGet_addScripts_foldl_ne (inst : InstDir) (instPath : String)
    (ops : List String) (fpm : PyDict) (k : String) (h : k ∉ ops) :
    dGet (ops.foldl (addScript inst instPath) fpm) k = dGet fpm k := by
  induction ops generalizing fpm with
  | nil => rfl
  | cons op rest ih =>
      have hop : op ≠ k := fun he => h (he ▸ List.mem_cons_self op rest)
      have hrest : k ∉ rest := fun hm => h (List.mem_cons_of_mem op hm)
      simp only [List.foldl_cons]
      rw [ih _ hrest, dGet_addScript_ne _ _ _ _ _ hop]

lemma dGet_applyFpmDefaults_version (name : String) (repo : RepoState)
    (inst : InstDir) (instPath : String) (fpm : PyDict) :
    dGet (applyFpmDefaults name repo inst instPath fpm) "version"
      = dGet fpm "version" := by
  unfold applyFpmDefaults addScripts
  rw [dGet_dSet]
  simp only [if_neg (by decide : ¬ ("exclude" = "version"))]
  rw [dGet_dSetdefault_ne _ _ _ _ (by decide),
      dGet_dSetdefault_ne _ _ _ _ (by decide),
      dGet_dSetdefault_ne _ _ _ _ (by decide),
      dGet_dSetdefault_ne _ _ _ _ (by decide),
      dGet_dSetdefault_ne _ _ _ _ (by decide),
      dGet_addScripts_foldl_ne _ _ _ _ _ (by decide)]

/-! ## Claims about exclude normalization, flag rendering and load errors -/

lemma pyMem_default_normalizeExclude (v : Option PyVal) :
    pyMem (.str "*/.git*") (normalizeExclude v) = true := by
  unfold normalizeExclude
  simp only [EXCLUDE_DEFAULT, List.foldl_cons, List.foldl_nil]
  split
  · assumption
  · rename_i h
    simp [pyMem, List.any_append, pyEq]

/-- C6: exclude-list normalization is idempotent — applied to its own
output (a list), it returns the same list: the wrap step leaves a list
alone and every default pattern is already present, so nothing is
appended.  The hypothesis keeps the input inside the PackageSpec value
grammar (no dict-valued `exclude`). -/
theorem normalizeExclude_idempotent (v : Option PyVal)
    (hv : ∀ d, v ≠ some (PyVal.dict d)) :
    normalizeExclude (some (.list (normalizeExclude v))) = normalizeExclude v := by
  have h := pyMem_default_normalizeExclude v
  generalize hxs : normalizeExclude v = xs at h ⊢
  simp [normalizeExclude, EXCLUDE_DEFAULT, h]

/-- Witness for C6 at the scalar input `"custom"`. -/
theorem normalizeExclude_idempotent_witness :
    (∀ d, (some (PyVal.scalar (.str "custom")) : Option PyVal) ≠ some (PyVal.dict d))
    ∧ normalizeExclude (some (.list (normalizeExclude (some (.scalar (.str "custom"))))))
        = normalizeExclude (some (.scalar (.str "custom"))) :=
  ⟨fun d h => PyVal.noConfusion (Option.some.inj h),
   normalizeExclude_idempotent _ (fun d h => PyVal.noConfusion (Option.some.inj h))⟩

/-- C8: a boolean `true` appends exactly the bare `--<key>` flag with no
value and a boolean `false` contributes nothing, both in the
per-element renderer and end to end: `{"force": true}` adds a bare
`--force` to the synthesized command and `{"force": false}` adds no
token at all. -/
theorem boolean_flag_rendering :
    (∀ (td : PyDict) (k : String),
        fpmElem td k (.scalar (.bool true)) = .ok (["--" ++ k], [])
        ∧ fpmElem td k (.scalar (.bool false)) = .ok ([], []))
    ∧ run_fpm [("force", .scalar (.bool true))] [] = .ok (baseCmds ++ ["--force"])
    ∧ run_fpm [("force", .scalar (.bool false))] [] = .ok baseCmds := by
  exact ⟨fun td k => ⟨rfl, rfl⟩, rfl, rfl⟩

lemma isPrefixOf_iff_append (a b : List Char) :
    a.isPrefixOf b = true ↔ ∃ t, b = a ++ t := by
  induction a generalizing b with
  | nil => simp [List.isPrefixOf]
  | cons x xs ih =>
      cases b with
      | nil => simp [List.isPrefixOf]
      | cons y ys =>
          constructor
          · intro h
            simp only [List.isPrefixOf, Bool.and_eq_true, beq_iff_eq] at h
            obtain ⟨hxy, hrest⟩ := h
            subst hxy
            obtain ⟨t, ht⟩ := (ih ys).1 hrest
            exact ⟨t, by simp [ht]⟩
          · rintro ⟨t, ht⟩
            simp only [List.cons_append, List.cons.injEq] at ht
            obtain ⟨hxy, hys⟩ := ht
            simp [List.isPrefixOf, hxy, (ih ys).2 ⟨t, hys⟩]

lemma containsSublist_iff (big small : List Char) :
    containsSublist big small = true ↔ ∃ pre post, big = pre ++ small ++ post := by
  induction big with
  | nil =>
      simp only [containsSublist, List.isEmpty_iff]
      constructor
      · intro h
        exact ⟨[], [], by simp [h]⟩
      · rintro ⟨pre, post, h⟩
        rcases List.append_eq_nil.1 (List.append_eq_nil.1 h.symm).1 with ⟨-, h₂⟩
        exact h₂
  | cons c rest ih =>
      simp only [containsSublist, Bool.or_eq_true, isPrefixOf_iff_append, ih]
      constructor
      · rintro (⟨t, ht⟩ | ⟨pre, post, hp⟩)
        · exact ⟨[], t, by simp [ht]⟩
        · exact ⟨c :: pre, post, by simp [hp]⟩
      · rintro ⟨pre, post, hp⟩
        cases pre with
        | nil => exact Or.inl ⟨post, by simpa using hp⟩
        | cons p ps =>
            right
            simp only [List.cons_append, List.cons.injEq] at hp
            exact ⟨ps, post, hp.2⟩

/-- C9 (divergence witness): on a file whose contents are not valid
JSON, the re-raise at line 67 calls `json.JSONDecodeError` with a single
argument, so `load_json` propagates the resulting `TypeError`, whose
message (evaluated here at the failing input) contains neither the
filename nor the parse error's message; the intended
`"Failed to load json <fn>: <e>"` wrapper is never produced.  A missing
file propagates the raw `FileNotFoundError` (which does name the file,
but carries no parse error). -/
theorem load_json_invalid_json_raises_typeerror :
    load_json "repos.json"
        (FileState.invalid "Expecting value: line 1 column 1 (char 0)")
      = .error (.typeError
          "JSONDecodeError.__init__() missing 2 required positional arguments: 'doc' and 'pos'")
    ∧ ¬ (∃ pre post : List Char,
          (PyError.typeError
            "JSONDecodeError.__init__() missing 2 required positional arguments: 'doc' and 'pos'").msg.data
            = pre ++ "repos.json".data ++ post)
    ∧ ¬ (∃ pre post : List Char,
          (PyError.typeError
            "JSONDecodeError.__init__() missing 2 required positional arguments: 'doc' and 'pos'").msg.data
            = pre ++ "Expecting value: line 1 column 1 (char 0)".data ++ post)
    ∧ load_json "repos.json" FileState.missing
      = .error (.fileNotFound "[Errno 2] No such file or directory: 'repos.json'") :=
  ⟨rfl,
   fun ⟨pre, post, h⟩ =>
     absurd ((containsSublist_iff _ _).2 ⟨pre, post, h⟩) (by decide),
   fun ⟨pre, post, h⟩ =>
     absurd ((containsSublist_iff _ _).2 ⟨pre, post, h⟩) (by decide),
   rfl⟩

/-! ## Claims about reference resolution -/

/-- C7: when `ref_is_version` is set and a ref resolves, the derived
version is the ref name with exactly one leading `v` stripped when
present (the ref name unchanged otherwise); when `ref_is_version` is
unset, no version is derived. -/
theorem ref_is_version_derivation :
    ∀ (refs : List GitRef) (n : String) (t : RefType) (r : GitRef) (ver : Option String),
      (resolveRef refs n true = some (t, r, ver) →
        ver = some (if pyStartsWith n "v" then n.drop 1 else n))
      ∧ (resolveRef refs n false = some (t, r, ver) → ver = Option.none) := by
  intro refs n t r ver
  constructor <;> intro h <;>
    (simp only [resolveRef, tryRefTypes] at h
     cases h₁ : refCandidates refs (fullRefName RefType.tag n) with
     | cons a as =>
         rw [h₁] at h
         simp only [Option.some.injEq, Prod.mk.injEq] at h
         simp [← h.2.2, stripLeadingV]
     | nil =>
         rw [h₁] at h
         cases h₂ : refCandidates refs (fullRefName RefType.branch n) with
         | cons a as =>
             rw [h₂] at h
             simp only [Option.some.injEq, Prod.mk.injEq] at h
             simp [← h.2.2, stripLeadingV]
         | nil =>
             rw [h₂] at h
             exact absurd h (by simp))

/-- Witness for C7: the tag `v1.2.0` with `ref_is_version` set derives
version `1.2.0`. -/
theorem ref_is_version_derivation_witness :
    resolveRef [⟨.tag, "v1.2.0"⟩] "v1.2.0" true
        = some (RefType.tag, ⟨.tag, "v1.2.0"⟩, some "1.2.0")
    ∧ some "1.2.0"
        = some (if pyStartsWith "v1.2.0" "v" then "v1.2.0".drop 1 else "v1.2.0") :=
  ⟨by decide,
   (ref_is_version_derivation [⟨.tag, "v1.2.0"⟩] "v1.2.0" RefType.tag
      ⟨.tag, "v1.2.0"⟩ (some "1.2.0")).1 (by decide)⟩

lemma refCandidates_filter_not_origin (refs : List GitRef) (n : String) :
    refCandidates (refs.filter (fun r => r.name ≠ "origin/" ++ n)) n
      = refCandidates refs n := by
  unfold refCandidates
  rw [List.filter_filter]
  apply List.filter_congr
  intro r hr
  by_cases h : r.name = n
  · have hlen : n.length < ("origin/" ++ n).length := by
      rw [String.length_append]
      have h7 : "origin/".length = 7 := by decide
      rw [h7]
      omega
    have hne2 : ¬ n = "origin/" ++ n := by
      intro he
      rw [← he] at hlen
      exact lt_irrefl _ hlen
    have hne : r.name ≠ "origin/" ++ n := by rw [h]; exact hne2
    simp [h, hne, hne2]
  · simp [h]

/-- C3: reference resolution tries the exact name (the tag pass) before
the `origin/`-qualified name (the branch pass), and stops at the first
match: when the tag named `n` is the first reference matching `n`, it is
selected with the configured derivation, and the result is unchanged if
every reference named `origin/<n>` is removed — the branch candidates
are never considered. -/
theorem tag_resolution_wins (refs : List GitRef) (n : String) (b : Bool) (tg : GitRef)
    (hk : tg.kind = GitRefKind.tag)
    (hhead : (refCandidates refs (fullRefName RefType.tag n)).head? = some tg) :
    resolveRef refs n b
      = some (RefType.tag, tg, if b then some (stripLeadingV n) else Option.none)
    ∧ resolveRef refs n b
      = resolveRef (refs.filter (fun r => r.name ≠ "origin/" ++ n)) n b := by
  cases h₁ : refCandidates refs (fullRefName RefType.tag n) with
  | nil => rw [h₁] at hhead; exact absurd hhead (by simp)
  | cons a as =>
      rw [h₁] at hhead
      simp only [List.head?_cons, Option.some.injEq] at hhead
      subst hhead
      have h₂ : refCandidates (refs.filter (fun r => r.name ≠ "origin/" ++ n))
          (fullRefName RefType.tag n) = a :: as := by
        have := refCandidates_filter_not_origin refs n
        simp only [fullRefName] at h₁ ⊢
        rw [this, h₁]
      have h₂' := h₂
      simp only [ne_eq, decide_not] at h₂'
      constructor
      · simp [resolveRef, tryRefTypes, h₁]
      · simp [resolveRef, tryRefTypes, h₁, h₂, h₂']

/-- Witness for C3: a repository where the tag `rel` and the remote
branch `origin/rel` share the configured name `rel`; the tag is picked. -/
theorem tag_resolution_wins_witness :
    (GitRef.mk GitRefKind.tag "rel").kind = GitRefKind.tag
    ∧ (refCandidates [⟨.remote, "origin/rel"⟩, ⟨.tag, "rel"⟩]
        (fullRefName RefType.tag "rel")).head? = some ⟨.tag, "rel"⟩
    ∧ resolveRef [⟨.remote, "origin/rel"⟩, ⟨.tag, "rel"⟩] "rel" false
        = some (RefType.tag, ⟨.tag, "rel"⟩, Option.none) :=
  ⟨rfl, by decide,
    (tag_resolution_wins [⟨.remote, "origin/rel"⟩, ⟨.tag, "rel"⟩] "rel" false
      ⟨.tag, "rel"⟩ rfl (by decide)).1⟩

/-- C4: when the configured `ref` matches neither a reference with the
exact name nor one named `origin/<ref>` — and likewise when there is no
`ref` key at all — the local variable `ref` is never assigned, so the
checkout at line 111 raises `UnboundLocalError` and `prep_repo` fails
instead of returning a repository handle. -/
theorem prep_repo_unassigned_ref_fails (repo_d : PyDict) (refs : List GitRef)
    (h : dGet repo_d "ref" = Option.none
        ∨ ∃ n, dGet repo_d "ref" = some (PyVal.scalar (.str n))
            ∧ refCandidates refs (fullRefName RefType.tag n) = []
            ∧ refCandidates refs (fullRefName RefType.branch n) = []) :
    prep_repo repo_d refs = .error (.unboundLocal "ref") := by
  rcases h with h | ⟨n, h, h₁, h₂⟩
  · simp [prep_repo, prepRepoResolve, h, Bind.bind, Except.bind]
  · simp [prep_repo, prepRepoResolve, h, resolveRef, tryRefTypes, h₁, h₂,
      Bind.bind, Except.bind]

/-- Witness for C4: a repo spec whose `ref` `nope` matches no reference
of a repository that only has a `master` head. -/
theorem prep_repo_unassigned_ref_fails_witness :
    (dGet [("name", PyVal.scalar (.str "demo")), ("ref", PyVal.scalar (.str "nope"))] "ref"
        = some (PyVal.scalar (.str "nope"))
      ∧ refCandidates [⟨.head, "master"⟩] (fullRefName RefType.tag "nope") = []
      ∧ refCandidates [⟨.head, "master"⟩] (fullRefName RefType.branch "nope") = [])
    ∧ prep_repo [("name", PyVal.scalar (.str "demo")), ("ref", PyVal.scalar (.str "nope"))]
        [⟨.head, "master"⟩] = .error (.unboundLocal "ref") :=
  ⟨⟨by decide, by decide, by decide⟩,
   prep_repo_unassigned_ref_fails _ _
     (Or.inr ⟨"nope", by decide, by decide, by decide⟩)⟩

/-- C5 (divergence witness): when neither the `packaging` subdirectory
nor the `instructions/<name>` directory exists, `gather_instructions`
fails by reading the never-assigned local `inst` at line 139 — an
`UnboundLocalError`, not the intended `"No instructions path found"`
exception of line 140 — and never proceeds to load `fpm.json`. -/
theorem gather_instructions_unbound_inst :
    gather_instructions "demo" ⟨[], "/wd", 100, "abcdef1234", "url"⟩ (.scalar .none)
      ⟨⟨false, .missing, []⟩, ⟨false, .missing, []⟩⟩ "/cwd"
      = .error (.unboundLocal "inst") := by
  rfl

/-! ## Claims about `parse_repos` -/

lemma parseRepoEntry_name (default : PyDict) (k : String) (entry : PyDict)
    (v : PyDict) (h : parseRepoEntry default k entry = .ok v) :
    dGet v "name" = some (PyVal.scalar (.str k)) := by
  unfold parseRepoEntry at h
  cases h₁ : popTemplates default with
  | error e => rw [h₁] at h; exact absurd h (by simp [Bind.bind, Except.bind])
  | ok p₁ =>
      obtain ⟨tplsD, v₀⟩ := p₁
      rw [h₁] at h
      cases h₂ : popTemplates entry with
      | error e =>
          rw [h₂] at h
          exact absurd h (by simp [Bind.bind, Except.bind])
      | ok p₂ =>
          obtain ⟨tplsR, entry'⟩ := p₂
          rw [h₂] at h
          simp only [Bind.bind, Except.bind, Except.ok.injEq] at h
          subst h
          rw [dGet_dSet]
          simp only [if_neg (by decide : ¬ ("templates" = "name"))]
          rw [dGet_dSet]
          simp

lemma parseRepos_foldlM_names (repos : PyAssoc PyDict) (default : PyDict)
    (ks : List String) (acc res : List PyDict)
    (h : ks.foldlM (parseReposStep repos default) acc = .ok res) :
    res.map (fun d => dGet d "name")
      = acc.map (fun d => dGet d "name")
        ++ ks.map (fun k => some (PyVal.scalar (.str k))) := by
  induction ks generalizing acc with
  | nil =>
      simp only [List.foldlM_nil] at h
      cases h
      simp
  | cons k ks ih =>
      rw [List.foldlM_cons] at h
      cases hstep : parseReposStep repos default acc k with
      | error e => rw [hstep] at h; exact absurd h (by simp [Bind.bind, Except.bind])
      | ok acc' =>
          rw [hstep] at h
          simp only [Bind.bind, Except.bind] at h
          have hmap := ih acc' h
          unfold parseReposStep at hstep
          cases hget : dGet repos k with
          | none =>
              rw [hget] at hstep
              exact absurd hstep (by simp [Bind.bind, Except.bind])
          | some entry =>
              rw [hget] at hstep
              simp only [Bind.bind, Except.bind] at hstep
              cases hent : parseRepoEntry default k entry with
              | error e =>
                  rw [hent] at hstep
                  exact absurd hstep (by simp)
              | ok v =>
                  rw [hent] at hstep
                  simp only [Except.ok.injEq] at hstep
                  subst hstep
                  rw [hmap]
                  simp [parseRepoEntry_name default k entry v hent]

/-- C2: every RepoSpec dict produced by `parse_repos` has its `name`
equal to the map key it was built from — even when `name` appears in the
`DEFAULT` entry or the per-repo entry — and the result sequence is
ordered by sorted key: position for position, the names of the results
are the sorted non-DEFAULT keys of the input. -/
theorem parse_repos_name_is_key (repos0 : PyAssoc PyDict) (res : List PyDict)
    (h : parse_repos repos0 = .ok res) :
    res.map (fun d => dGet d "name")
      = (sortStrings (dKeys (dPop repos0 REPOS_DEFAULT_KW).2)).map
          (fun k => some (PyVal.scalar (.str k))) := by
  unfold parse_repos at h
  have := parseRepos_foldlM_names (dPop repos0 REPOS_DEFAULT_KW).2
    (((dPop repos0 REPOS_DEFAULT_KW).1).getD [])
    (sortStrings (dKeys (dPop repos0 REPOS_DEFAULT_KW).2)) [] res ?_
  · simpa using this
  · exact h

/-- Witness for C2: `DEFAULT` and the per-repo entry both set `name`,
yet the results carry the map keys `alpha`, `zeta` in sorted order. -/
theorem parse_repos_name_is_key_witness :
    (∃ res, parse_repos
        [("DEFAULT", [("name", PyVal.scalar (.str "dflt"))]),
         ("zeta", [("name", PyVal.scalar (.str "x"))]),
         ("alpha", [])] = .ok res
      ∧ res.map (fun d => dGet d "name")
          = [some (PyVal.scalar (.str "alpha")), some (PyVal.scalar (.str "zeta"))]) := by
  refine ⟨[[("name", PyVal.scalar (.str "alpha")), ("templates", PyVal.dict [])],
           [("name", PyVal.scalar (.str "zeta")), ("templates", PyVal.dict [])]],
          by rfl, ?_⟩
  have h := parse_repos_name_is_key
    [("DEFAULT", [("name", PyVal.scalar (.str "dflt"))]),
     ("zeta", [("name", PyVal.scalar (.str "x"))]),
     ("alpha", [])]
    [[("name", PyVal.scalar (.str "alpha")), ("templates", PyVal.dict [])],
     [("name", PyVal.scalar (.str "zeta")), ("templates", PyVal.dict [])]]
    (by rfl)
  rw [h]
  decide

/-! ## Claim about version precedence -/

lemma applyVersion_of_get_some (name : String) (version : PyVal) (fpm : PyDict)
    (v : String) (h : dGet fpm "version" = some (PyVal.scalar (.str v))) :
    applyVersion name version fpm = .ok fpm := by
  unfold applyVersion dSetdefault
  rw [h]
  simp

lemma applyVersion_of_get_none_str (name s : String) (fpm : PyDict)
    (h : dGet fpm "version" = Option.none) :
    applyVersion name (PyVal.scalar (.str s)) fpm
      = .ok (dSet fpm "version" (PyVal.scalar (.str s))) := by
  unfold applyVersion dSetdefault
  rw [h]
  simp

lemma applyVersion_of_get_none_none (name : String) (fpm : PyDict)
    (h : dGet fpm "version" = Option.none) :
    applyVersion name (PyVal.scalar .none) fpm
      = .error (.exception ("No version for " ++ name)) := by
  unfold applyVersion dSetdefault
  rw [h]
  simp

/-- C1: for a repo whose ref resolves, the version in the final package
dict follows the precedence chain — an explicit `version` in `fpm.json`
wins over the RepoSpec's explicit `version`, which wins over the version
derived via `ref_is_version`; when none of the three is present,
`gather_instructions` raises the no-version error and returns no dict. -/
theorem version_precedence
    (repo_d : PyDict) (repo : RepoState) (fs : GatherFS) (cwd : String)
    (name refName : String) (t : RefType) (r : GitRef)
    (fpmV specV derived : Option String) (fpmD : PyDict)
    (hname : dGet repo_d "name" = some (PyVal.scalar (.str name)))
    (href : dGet repo_d "ref" = some (PyVal.scalar (.str refName)))
    (hresolve : resolveRef repo.refs refName (refIsVersionFlag repo_d)
        = some (t, r, derived))
    (hspec : dGet repo_d "version" = specV.map (fun s => PyVal.scalar (.str s)))
    (hdir : fs.packaging.isDir = true)
    (hjson : fs.packaging.fpmJson = FileState.valid fpmD)
    (hkeys : (dKeys fpmD).find? (fun k => k.length = 1) = Option.none)
    (hfpmv : dGet fpmD "version" = fpmV.map (fun s => PyVal.scalar (.str s))) :
    (∀ v, (fpmV.orElse fun _ => specV.orElse fun _ => derived) = some v →
        ∃ d, makePackageDict repo_d repo fs cwd = .ok d
          ∧ dGet d "version" = some (PyVal.scalar (.str v)))
    ∧ (fpmV = Option.none → specV = Option.none → derived = Option.none →
        makePackageDict repo_d repo fs cwd
          = .error (.exception ("No version for " ++ name))) := by
  have hprep : prep_repo repo_d repo.refs
      = .ok (r, match specV.orElse fun _ => derived with
             | some s => PyVal.scalar (.str s)
             | Option.none => PyVal.scalar .none) := by
    unfold prep_repo prepRepoResolve
    rw [href]
    simp only [Bind.bind, Except.bind]
    rw [hresolve]
    cases specV with
    | none =>
        simp only [Option.map_none'] at hspec
        cases derived <;> simp [hspec, Option.orElse]
    | some s =>
        simp only [Option.map_some'] at hspec
        simp [hspec, Option.orElse]
  have hgather : ∀ version, gather_instructions name repo version fs cwd
      = applyVersion name version
          (applyFpmDefaults name repo fs.packaging
            (pathJoin repo.workingDir "packaging") fpmD) := by
    intro version
    unfold gather_instructions
    simp [hdir, hjson, load_json, hkeys, Bind.bind, Except.bind]
  have hmkp : makePackageDict repo_d repo fs cwd
      = gather_instructions name repo
          (match specV.orElse fun _ => derived with
           | some s => PyVal.scalar (.str s)
           | Option.none => PyVal.scalar .none) fs cwd := by
    unfold makePackageDict
    rw [hname, hprep]
    simp [Bind.bind, Except.bind]
  have hveq : dGet (applyFpmDefaults name repo fs.packaging
      (pathJoin repo.workingDir "packaging") fpmD) "version" = dGet fpmD "version" :=
    dGet_applyFpmDefaults_version _ _ _ _ _
  constructor
  · intro v hv
    rw [hmkp, hgather]
    cases fpmV with
    | some v₀ =>
        have hvv : v₀ = v := by
          simpa [Option.orElse] using hv
        subst hvv
        simp only [Option.map_some'] at hfpmv
        have hv2 := hveq.trans hfpmv
        exact ⟨_, applyVersion_of_get_some name _ _ v₀ hv2, hv2⟩
    | none =>
        have hso : (specV.orElse fun _ => derived) = some v := by
          simpa [Option.orElse] using hv
        simp only [Option.map_none'] at hfpmv
        have hv2 := hveq.trans hfpmv
        rw [hso]
        refine ⟨_, applyVersion_of_get_none_str name v _ hv2, ?_⟩
        rw [dGet_dSet]
        simp
  · intro h₁ h₂ h₃
    subst h₁; subst h₂; subst h₃
    rw [hmkp, hgather]
    simp only [Option.map_none'] at hfpmv
    have hv2 := hveq.trans hfpmv
    exact applyVersion_of_get_none_none name _ hv2

/-- Witness for C1: the end-to-end demo scenario — ref `v1.2.0` with
`ref_is_version` set, no `version` in the repo spec or in `fpm.json` —
yields a final package dict with version `1.2.0`. -/
theorem version_precedence_witness :
    resolveRef [⟨GitRefKind.tag, "v1.2.0"⟩] "v1.2.0"
        (refIsVersionFlag
          [("name", PyVal.scalar (.str "demo")),
           ("fork", PyVal.scalar (.str "acme")),
           ("ref", PyVal.scalar (.str "v1.2.0")),
           ("ref_is_version", PyVal.scalar (.bool true))])
      = some (RefType.tag, ⟨GitRefKind.tag, "v1.2.0"⟩, some "1.2.0")
    ∧ ∃ d, makePackageDict
          [("name", PyVal.scalar (.str "demo")),
           ("fork", PyVal.scalar (.str "acme")),
           ("ref", PyVal.scalar (.str "v1.2.0")),
           ("ref_is_version", PyVal.scalar (.bool true))]
          ⟨[⟨GitRefKind.tag, "v1.2.0"⟩], "/wd", 100, "abcdef1234",
           "https://github.com/acme/demo"⟩
          ⟨⟨true, .valid [("description", PyVal.scalar (.str "demo pkg"))], []⟩,
           ⟨false, .missing, []⟩⟩
          "/cwd" = .ok d
        ∧ dGet d "version" = some (PyVal.scalar (.str "1.2.0")) :=
  ⟨by decide,
   (version_precedence
      [("name", PyVal.scalar (.str "demo")),
       ("fork", PyVal.scalar (.str "acme")),
       ("ref", PyVal.scalar (.str "v1.2.0")),
       ("ref_is_version", PyVal.scalar (.bool true))]
      ⟨[⟨GitRefKind.tag, "v1.2.0"⟩], "/wd", 100, "abcdef1234",
       "https://github.com/acme/demo"⟩
      ⟨⟨true, .valid [("description", PyVal.scalar (.str "demo pkg"))], []⟩,
       ⟨false, .missing, []⟩⟩
      "/cwd" "demo" "v1.2.0" RefType.tag ⟨GitRefKind.tag, "v1.2.0"⟩
      Option.none Option.none (some "1.2.0")
      [("description", PyVal.scalar (.str "demo pkg"))]
      (by decide) (by decide) (by decide) (by decide) (by rfl) (by rfl)
      (by decide) (by decide)).1 "1.2.0" (by rfl)⟩

/-! ## Claims about command synthesis on non-string values -/

lemma dGet_eq_none_iff {α : Type} (d : PyAssoc α) (k : String) :
    dGet d k = Option.none ↔ k ∉ dKeys d := by
  induction d with
  | nil => simp [dGet, dKeys]
  | cons kv rest ih =>
      obtain ⟨k₀, v₀⟩ := kv
      by_cases h : k₀ = k
      · subst h
        simp [dGet, dKeys]
      · have hne : ¬ k = k₀ := fun he => h he.symm
        simp only [dGet, if_neg h, dKeys, List.map_cons, List.mem_cons]
        rw [ih]
        simp [hne, dKeys]

lemma dGet_of_mem_nodup {α : Type} (d : PyAssoc α) (k : String) (v : α)
    (hnd : (dKeys d).Nodup) (hmem : (k, v) ∈ d) : dGet d k = some v := by
  induction d with
  | nil => cases hmem
  | cons kv rest ih =>
      obtain ⟨k₀, v₀⟩ := kv
      simp only [dKeys, List.map_cons, List.nodup_cons] at hnd
      rcases List.mem_cons.1 hmem with he | hm
      · cases he
        simp [dGet]
      · have hk0 : ¬ k₀ = k := by
          intro h
          subst h
          exact hnd.1 (List.mem_map_of_mem Prod.fst hm)
        simp only [dGet, if_neg hk0]
        exact ih hnd.2 hm

lemma dPop_fst {α : Type} (d : PyAssoc α) (k : String) :
    (dPop d k).1 = dGet d k := by
  induction d with
  | nil => rfl
  | cons kv rest ih =>
      obtain ⟨k₀, v₀⟩ := kv
      by_cases h : k₀ = k <;> simp [dPop, dGet, h, ih]

lemma mem_dPop_snd_of_ne {α : Type} (d : PyAssoc α) (k k₁ : String) (v₁ : α)
    (hmem : (k₁, v₁) ∈ d) (hne : k₁ ≠ k) : (k₁, v₁) ∈ (dPop d k).2 := by
  induction d with
  | nil => cases hmem
  | cons kv rest ih =>
      obtain ⟨k₀, v₀⟩ := kv
      rcases List.mem_cons.1 hmem with he | hm
      · cases he
        have h : ¬ k₁ = k := hne
        simp [dPop, h]
      · by_cases h : k₀ = k
        · simp [dPop, h, hm]
        · simp only [dPop, if_neg h]
          exact List.mem_cons_of_mem _ (ih hm)

lemma dGet_dPop_snd_ne {α : Type} (d : PyAssoc α) (k k' : String) (hne : k' ≠ k) :
    dGet (dPop d k).2 k' = dGet d k' := by
  induction d with
  | nil => rfl
  | cons kv rest ih =>
      obtain ⟨k₀, v₀⟩ := kv
      by_cases h : k₀ = k
      · subst h
        have hne2 : ¬ k₀ = k' := fun he => hne he.symm
        simp [dPop, dGet, hne2]
      · by_cases h₁ : k₀ = k' <;> simp [dPop, dGet, h, h₁, hne, ih]

lemma dKeys_dPop_snd_sublist {α : Type} (d : PyAssoc α) (k : String) :
    (dKeys (dPop d k).2).Sublist (dKeys d) := by
  induction d with
  | nil => simp [dPop, dKeys]
  | cons kv rest ih =>
      obtain ⟨k₀, v₀⟩ := kv
      by_cases h : k₀ = k
      · simp [dPop, h, dKeys]
      · simp only [dPop, if_neg h, dKeys, List.map_cons]
        exact List.Sublist.cons₂ _ ih

lemma dKeys_dSet {α : Type} (d : PyAssoc α) (k : String) (v : α) :
    dKeys (dSet d k v) = if k ∈ dKeys d then dKeys d else dKeys d ++ [k] := by
  induction d with
  | nil => simp [dSet, dKeys]
  | cons kv rest ih =>
      obtain ⟨k₀, v₀⟩ := kv
      by_cases h : k₀ = k
      · subst h
        simp [dSet, dKeys]
      · have hne : ¬ k = k₀ := fun he => h he.symm
        simp only [dSet, if_neg h, dKeys, List.map_cons, List.mem_cons] at ih ⊢
        rw [ih]
        by_cases hm : k ∈ List.map Prod.fst rest <;> simp [hm, hne]

lemma nodup_dKeys_dSet {α : Type} (d : PyAssoc α) (k : String) (v : α)
    (hnd : (dKeys d).Nodup) : (dKeys (dSet d k v)).Nodup := by
  rw [dKeys_dSet]
  split
  · exact hnd
  · rename_i hk
    exact hnd.append (List.nodup_singleton k)
      (by simpa [List.disjoint_singleton] using hk)

lemma mem_dSet_self {α : Type} (d : PyAssoc α) (k : String) (v : α) :
    (k, v) ∈ dSet d k v := by
  induction d with
  | nil => simp [dSet]
  | cons kv rest ih =>
      obtain ⟨k₀, v₀⟩ := kv
      by_cases h : k₀ = k
      · subst h
        simp [dSet]
      · simp only [dSet, if_neg h]
        exact List.mem_cons_of_mem _ ih

lemma mem_dSet_of_ne {α : Type} (d : PyAssoc α) (k₀ k : String) (v₀ v : α)
    (hmem : (k, v) ∈ d) (hne : k ≠ k₀) : (k, v) ∈ dSet d k₀ v₀ := by
  induction d with
  | nil => cases hmem
  | cons kv rest ih =>
      obtain ⟨k₁, v₁⟩ := kv
      rcases List.mem_cons.1 hmem with he | hm
      · cases he
        simp only [dSet, if_neg hne]
        exact List.mem_cons_self _ _
      · by_cases h : k₁ = k₀
        · simp only [dSet, if_pos h]
          exact List.mem_cons_of_mem _ hm
        · simp only [dSet, if_neg h]
          exact List.mem_cons_of_mem _ (ih hm)

lemma dGet_renameStep_ne (acc : PyDict) (kk k' : String)
    (h1 : k' ≠ kk) (h2 : k' ≠ DEFAULT_PKG ++ "-" ++ kk) :
    dGet (renameStep acc kk) k' = dGet acc k' := by
  unfold renameStep
  cases hp : dPop acc kk with
  | mk fst snd =>
      cases fst with
      | none => simp
      | some v =>
          simp only
          rw [dGet_dSet]
          rw [if_neg (fun he => h2 he.symm)]
          have : snd = (dPop acc kk).2 := by rw [hp]
          rw [this, dGet_dPop_snd_ne _ _ _ h1]

lemma nodup_dKeys_renameStep (acc : PyDict) (kk : String)
    (hnd : (dKeys acc).Nodup) : (dKeys (renameStep acc kk)).Nodup := by
  unfold renameStep
  cases hp : dPop acc kk with
  | mk fst snd =>
      cases fst with
      | none => simpa using hnd
      | some v =>
          simp only
          apply nodup_dKeys_dSet
          have : snd = (dPop acc kk).2 := by rw [hp]
          rw [this]
          exact (dKeys_dPop_snd_sublist acc kk).nodup hnd

lemma mem_renameStep (acc : PyDict) (kk k : String) (v : PyVal)
    (hnd : (dKeys acc).Nodup)
    (hmem : (k, v) ∈ acc)
    (hprot : k = DEFAULT_PKG ++ "-" ++ kk → dGet acc kk = Option.none) :
    ∃ k', (k', v) ∈ renameStep acc kk
      ∧ (k' = k ∨ k' = DEFAULT_PKG ++ "-" ++ kk) := by
  unfold renameStep
  cases hp : dPop acc kk with
  | mk fst snd =>
      have hfst : fst = dGet acc kk := by
        have := dPop_fst acc kk
        rw [hp] at this
        exact this
      have hsnd : snd = (dPop acc kk).2 := by rw [hp]
      cases fst with
      | none => exact ⟨k, hmem, Or.inl rfl⟩
      | some v₀ =>
          simp only
          by_cases hk : k = kk
          · subst hk
            have : dGet acc k = some v := dGet_of_mem_nodup acc k v hnd hmem
            have hv : v₀ = v := by
              rw [this] at hfst
              exact Option.some.inj hfst
            subst hv
            exact ⟨DEFAULT_PKG ++ "-" ++ k, mem_dSet_self _ _ _, Or.inr rfl⟩
          · have hkr : k ≠ DEFAULT_PKG ++ "-" ++ kk := by
              intro he
              rw [hprot he] at hfst
              cases hfst
            refine ⟨k, ?_, Or.inl rfl⟩
            apply mem_dSet_of_ne _ _ _ _ _ _ hkr
            rw [hsnd]
            exact mem_dPop_snd_of_ne acc kk k v hmem hk

lemma mem_renameUserGroup (fpm : PyDict) (k : String) (v : PyVal)
    (hnd : (dKeys fpm).Nodup)
    (hmem : (k, v) ∈ fpm)
    (hu : k = "rpm-user" → dGet fpm "user" = Option.none)
    (hg : k = "rpm-group" → dGet fpm "group" = Option.none) :
    ∃ k', (k', v) ∈ renameUserGroup fpm := by
  have hru : DEFAULT_PKG ++ "-" ++ "user" = "rpm-user" := by decide
  have hrg : DEFAULT_PKG ++ "-" ++ "group" = "rpm-group" := by decide
  obtain ⟨k₁, hmem₁, hk₁⟩ := mem_renameStep fpm "user" k v hnd hmem
    (by rw [hru]; exact hu)
  have hnd₁ : (dKeys (renameStep fpm "user")).Nodup :=
    nodup_dKeys_renameStep fpm "user" hnd
  have hg₁ : k₁ = "rpm-group" → dGet (renameStep fpm "user") "group" = Option.none := by
    intro he
    have hk : k = "rpm-group" := by
      rcases hk₁ with h | h
      · rw [← h]; exact he
      · rw [hru] at h
        rw [h] at he
        exact absurd he (by decide)
    rw [dGet_renameStep_ne fpm "user" "group" (by decide) (by rw [hru]; decide)]
    exact hg hk
  obtain ⟨k₂, hmem₂, _⟩ := mem_renameStep (renameStep fpm "user") "group" k₁ v hnd₁
    hmem₁ (by rw [hrg]; exact hg₁)
  exact ⟨k₂, by simpa [renameUserGroup] using hmem₂⟩

lemma fpmElem_fails (td : PyDict) (k : String) (v : PyVal)
    (h : fpmElemFails v = true) : ∃ e, fpmElem td k v = .error e := by
  cases v with
  | scalar s =>
      cases s with
      | str s => cases h
      | bool b => cases h
      | int n => exact ⟨_, rfl⟩
      | none => exact ⟨_, rfl⟩
  | list xs => exact ⟨_, rfl⟩
  | dict d => exact ⟨_, rfl⟩

lemma processElems_fails (td : PyDict) (k : String) (vs : List PyVal)
    (h : ∃ v ∈ vs, fpmElemFails v = true) :
    ∃ e, processElems td k vs = .error e := by
  induction vs with
  | nil => simp at h
  | cons v rest ih =>
      cases he : fpmElem td k v with
      | error e =>
          exact ⟨e, by simp [processElems, he, Bind.bind, Except.bind]⟩
      | ok p =>
          rcases h with ⟨w, hw, hbad⟩
          rcases List.mem_cons.1 hw with rfl | hw'
          · obtain ⟨e, he'⟩ := fpmElem_fails td k w hbad
            rw [he] at he'
            cases he'
          · obtain ⟨e, he'⟩ := ih ⟨w, hw', hbad⟩
            exact ⟨e, by simp [processElems, he, he', Bind.bind, Except.bind]⟩

lemma processItems_fails (td : PyDict) (items : List (String × PyVal))
    (k : String) (v : PyVal)
    (hmem : (k, v) ∈ items)
    (hbad : ∃ x ∈ pyValElems v, fpmElemFails x = true) :
    ∃ e, processItems td items = .error e := by
  induction items with
  | nil => cases hmem
  | cons kv rest ih =>
      obtain ⟨k₀, v₀⟩ := kv
      cases he : processElems td k₀ (pyValElems v₀) with
      | error e =>
          exact ⟨e, by simp [processItems, he, Bind.bind, Except.bind]⟩
      | ok p =>
          rcases List.mem_cons.1 hmem with heq | hm
          · cases heq
            obtain ⟨e, he'⟩ := processElems_fails td k (pyValElems v) hbad
            rw [he] at he'
            cases he'
          · obtain ⟨e, he'⟩ := ih hm
            exact ⟨e, by simp [processItems, he, he', Bind.bind, Except.bind]⟩

/-- C10 counterexample: the package dict
`{"rpm-user": 5, "user": "bob"}` contains a non-boolean, non-string
scalar value (the number 5), yet `run_fpm` succeeds and reaches command
execution — the `user`→`rpm-user` renaming of lines 207-210 overwrites
the offending value before the rendering loop sees it. -/
theorem run_fpm_nonstring_counterexample :
    (("rpm-user", PyVal.scalar (.int 5))
        ∈ ([("rpm-user", PyVal.scalar (.int 5)),
            ("user", PyVal.scalar (.str "bob"))] : PyDict))
    ∧ (pyValElems (PyVal.scalar (.int 5))).any fpmElemFails = true
    ∧ ∃ cmds, run_fpm
        [("rpm-user", PyVal.scalar (.int 5)), ("user", PyVal.scalar (.str "bob"))] []
        = .ok cmds :=
  ⟨by decide, by decide, ⟨_, by rfl⟩⟩

/-- C10 (amended): for every package dict with distinct keys containing
a non-boolean element that is not a string (e.g. a JSON number) under a
key that is not overwritten by the `user`/`group` renaming (i.e. not
`rpm-user` while `user` is present, and not `rpm-group` while `group`
is present), `run_fpm` raises before executing any command, because
every non-boolean element is rendered via `.format`, which only strings
support. -/
theorem run_fpm_nonstring_scalar_fails (fpm td : PyDict) (k : String) (v : PyVal)
    (hnd : (dKeys fpm).Nodup)
    (hmem : (k, v) ∈ fpm)
    (hbad : (pyValElems v).any fpmElemFails = true)
    (hu : k = "rpm-user" → dGet fpm "user" = Option.none)
    (hg : k = "rpm-group" → dGet fpm "group" = Option.none) :
    ∃ e, run_fpm fpm td = .error e := by
  obtain ⟨k', hmem'⟩ := mem_renameUserGroup fpm k v hnd hmem hu hg
  have hbad' : ∃ x ∈ pyValElems v, fpmElemFails x = true := by
    simpa [List.any_eq_true] using hbad
  obtain ⟨e, he⟩ := processItems_fails (dUpdate td fpm) (renameUserGroup fpm)
    k' v hmem' hbad'
  exact ⟨e, by simp [run_fpm, he, Bind.bind, Except.bind]⟩

/-- Witness for C10 (amended) at `{"iteration": 5}`. -/
theorem run_fpm_nonstring_scalar_fails_witness :
    ((dKeys ([("iteration", PyVal.scalar (.int 5))] : PyDict)).Nodup
      ∧ (("iteration", PyVal.scalar (.int 5))
          ∈ ([("iteration", PyVal.scalar (.int 5))] : PyDict)))
    ∧ ∃ e, run_fpm [("iteration", PyVal.scalar (.int 5))] [] = .error e :=
  ⟨⟨by decide, by decide⟩,
   run_fpm_nonstring_scalar_fails [("iteration", PyVal.scalar (.int 5))] []
     "iteration" (PyVal.scalar (.int 5))
     (by decide) (by decide) (by decide)
     (fun h => absurd h (by decide)) (fun h => absurd h (by decide))⟩
